import Mathlib

/-!
Verification of the cc2lc synchronization program (src/cc2lc.py) via a
shallow embedding in Lean.  Pure Python helpers become Lean functions;
the sqlite store becomes an explicit `Store` record threaded through the
engine; the lichess sink becomes a deterministic function (for the run
model) and a response-stream consumer (for the rate-limit retry loop).
-/

namespace Cc2lc

/-- Calendar month value: `class Month` in cc2lc.py, fields `month` and `year`. -/
structure Month where
  month : Int
  year : Int
deriving DecidableEq, Repr

/-- `Month.__lt__` on two `Month` operands: `if self.year < other.year: return True`,
then fall through to `return self.month < other.month` with no guard that the
years are equal (cc2lc.py lines 12-17). -/
def monthLt (a b : Month) : Bool :=
  if a.year < b.year then true else decide (a.month < b.month)

/-- `Month.__eq__` on two `Month` operands: both fields equal (cc2lc.py lines 19-22). -/
def monthEq (a b : Month) : Bool :=
  a.year == b.year && a.month == b.month

/-- Modelled from the spec (§3, §9): the corrected year-major, month-minor
comparator, which compares months only when the years are equal.  Used to
compare the code's comparator against the mandated one. -/
def specMonthLt (a b : Month) : Bool :=
  decide (a.year < b.year) || (a.year == b.year && decide (a.month < b.month))

/-- A Python runtime value as seen by `Month.__lt__` / `Month.__eq__`: either a
`Month` instance or any other object (carrying only its repr). -/
inductive PyVal where
  | month (m : Month)
  | other (text : String)
deriving DecidableEq, Repr

/-- `Month.__lt__` with its dynamic `isinstance` check: raises `RuntimeError`
when `other` is not a `Month` (cc2lc.py lines 12-14). -/
def month_lt_py (a : Month) (v : PyVal) : Except String Bool :=
  match v with
  | .month b => .ok (monthLt a b)
  | .other t => .error ("Cannot compare Month with " ++ t)

/-- `Month.__eq__` with its dynamic `isinstance` check: raises `RuntimeError`
when `other` is not a `Month` (cc2lc.py lines 19-21). -/
def month_eq_py (a : Month) (v : PyVal) : Except String Bool :=
  match v with
  | .month b => .ok (monthEq a b)
  | .other t => .error ("Cannot compare Month with " ++ t)

/-- `most_recent_month` (cc2lc.py lines 76-81): starts at index 0, replaces the
kept index whenever the visited month compares `<` to the kept one, and returns
the kept index (an `int`, not a `Month`).  The empty list returns 0. -/
def most_recent_month (months : List Month) : Nat :=
  months.enum.foldl
    (fun i p => if monthLt p.2 (months.getD i ⟨0, 0⟩) then p.1 else i) 0

/-- Python's `str.split(sep)` for a one-character separator, on the character
list of the string: splitting an empty string yields `[[]]`, and every
occurrence of the separator starts a new chunk. -/
def pySplit (sep : Char) : List Char → List (List Char)
  | [] => [[]]
  | c :: rest =>
    if c = sep then [] :: pySplit sep rest
    else
      match pySplit sep rest with
      | [] => [[c]]
      | p :: ps => (c :: p) :: ps

/-- Accumulating digit scanner for `int()`: digits, with single underscores
allowed between digits. -/
def digitsCore : Nat → List Char → Option Nat
  | acc, [] => some acc
  | acc, c :: rest =>
    if c.isDigit then digitsCore (10 * acc + (c.toNat - 48)) rest
    else if c = '_' then
      match rest with
      | [] => none
      | d :: rest2 =>
        if d.isDigit then digitsCore (10 * acc + (d.toNat - 48)) rest2 else none
    else none

/-- Nonempty digit run (first character must be a digit). -/
def digitsVal? : List Char → Option Nat
  | [] => none
  | c :: rest => if c.isDigit then digitsCore (c.toNat - 48) rest else none

/-- Python blank characters stripped by `int()`. -/
def isPySpace (c : Char) : Bool :=
  c == ' ' || c == '\t' || c == '\n' || c == '\r' || c == '\x0b' || c == '\x0c'

/-- Strip leading and trailing blanks. -/
def stripWs (cs : List Char) : List Char :=
  ((cs.dropWhile isPySpace).reverse.dropWhile isPySpace).reverse

/-- Python `int(str)` on ASCII input: optional surrounding whitespace, optional
sign, then a nonempty digit run (with underscore separators); `none` models the
`ValueError` raised on anything else. -/
def pyInt? (cs : List Char) : Option Int :=
  match stripWs cs with
  | '-' :: rest => (digitsVal? rest).map (fun n => -(n : Int))
  | '+' :: rest => (digitsVal? rest).map (fun n => (n : Int))
  | rest => (digitsVal? rest).map (fun n => (n : Int))

/-- `archive_url_extract_month` (cc2lc.py lines 69-73): split the url on `/`,
parse `parts[-2]` as the year and `parts[-1]` as the month; `none` models the
exception Python raises when a segment is not an integer or the url has fewer
than two segments. -/
def archive_url_extract_month (url : String) : Option Month :=
  match (pySplit '/' url.data).reverse with
  | mcs :: ycs :: _ =>
    match pyInt? ycs, pyInt? mcs with
    | some y, some m => some ⟨m, y⟩
    | _, _ => none
  | _ => none

/-- One HTTP response from the lichess import endpoint, reduced to the two
fields `export_to_lc` inspects: the status code and the url of the body. -/
structure HttpResponse where
  status : Nat
  url : String
deriving DecidableEq, Repr

/-- Result of `export_to_lc`: the imported game's url, or the non-success
status `raise_for_status` turned into an exception. -/
inductive SinkOutcome where
  | ok (url : String)
  | rejected (status : Nat)
deriving DecidableEq, Repr

/-- `export_to_lc` (cc2lc.py lines 84-101) over the stream of responses the
repeated POST would receive: while the status is 429 sleep 61 seconds and POST
again; then `raise_for_status` (status in [400, 600) raises) and return the
body's url.  The second component counts the total seconds slept; `none`
models the loop still running when the stream is exhausted. -/
def export_to_lc : List HttpResponse → Option (SinkOutcome × Nat)
  | [] => none
  | r :: rest =>
    if r.status == 429 then
      match export_to_lc rest with
      | none => none
      | some (out, slept) => some (out, 61 + slept)
    else if 400 ≤ r.status ∧ r.status < 600 then
      some (.rejected r.status, 0)
    else
      some (.ok r.url, 0)

/-- One row of the sqlite `games` table (cc2lc.py lines 33-49); the
autoincrement id is the row's position in `Store.games`. -/
structure GameRow where
  uuid : String
  pgn : String
  lc_url : String
  cc_url : String
  time_control : String
  white : String
  white_url : String
  white_rating : Int
  black : String
  black_url : String
  black_rating : Int
  result : String
deriving DecidableEq, Repr

/-- The sqlite database: the `games`, `months` and `month_games` tables in
insertion (autoincrement) order; a `month_games` row is `(game_id, month_id)`
with ids being positions in the respective lists. -/
structure Store where
  games : List GameRow
  months : List Month
  month_games : List (Nat × Nat)
deriving DecidableEq, Repr

/-- One game object from the chess.com monthly archive JSON, reduced to the
fields `export_month` reads. -/
structure RawGame where
  uuid : String
  pgn : String
  url : String
  time_control : String
  white_username : String
  white_id : String
  white_rating : Int
  white_result : String
  black_username : String
  black_id : String
  black_rating : Int
  black_result : String
deriving DecidableEq, Repr

/-- `is_game_exported` (cc2lc.py lines 104-106): some `games` row has this uuid. -/
def is_game_exported (s : Store) (uuid : String) : Bool :=
  s.games.any (fun r => r.uuid == uuid)

/-- `is_month_inserted` (cc2lc.py lines 109-112): some `months` row matches on
both columns. -/
def is_month_inserted (s : Store) (m : Month) : Bool :=
  s.months.any (fun r => monthEq r m)

/-- `is_game_associated` (cc2lc.py lines 115-117): some `month_games` row has
this game id. -/
def is_game_associated (s : Store) (gid : Nat) : Bool :=
  s.month_games.any (fun l => l.1 == gid)

/-- Index of the first list element satisfying `p`: the id returned by a
`SELECT id ... fetchone()` lookup. -/
def firstIdx {α : Type} (p : α → Bool) : List α → Option Nat
  | [] => none
  | a :: as => if p a then some 0 else (firstIdx p as).map (· + 1)

/-- `SELECT id FROM games WHERE uuid = ?` followed by `fetchone()[0]`
(cc2lc.py line 165); `none` models the `TypeError` on a missing row. -/
def gameIdOf (s : Store) (uuid : String) : Option Nat :=
  firstIdx (fun r => r.uuid == uuid) s.games

/-- `SELECT id FROM months WHERE month = ? AND year = ?` followed by
`fetchone()[0]` (cc2lc.py lines 162-163). -/
def monthIdOf (s : Store) (m : Month) : Option Nat :=
  firstIdx (fun r => monthEq r m) s.months

/-- Outcome derivation in `export_month` (cc2lc.py lines 144-149): white's
`result == "win"` is checked first, then black's, else draw. -/
def gameResult (g : RawGame) : String :=
  if g.white_result == "win" then "white"
  else if g.black_result == "win" then "black"
  else "draw"

/-- The `games` row built for one raw game once the sink returned `lc_url`
(cc2lc.py lines 130-157). -/
def buildGameRow (lc_url : String) (g : RawGame) : GameRow :=
  { uuid := g.uuid, pgn := g.pgn, lc_url := lc_url, cc_url := g.url,
    time_control := g.time_control, white := g.white_username,
    white_url := g.white_id, white_rating := g.white_rating,
    black := g.black_username, black_url := g.black_id,
    black_rating := g.black_rating, result := gameResult g }

/-- The unconditional `INSERT INTO games ...` (cc2lc.py lines 152-158): the
schema has no uniqueness constraint on `uuid`, so the insert always appends. -/
def insertGame (row : GameRow) (s : Store) : Store :=
  { s with games := s.games ++ [row] }

/-- One iteration of the per-game loop of `export_month` (cc2lc.py lines
129-158): skip when the uuid is already exported, otherwise import through the
sink and insert the row.  Also returns the uuids submitted to the sink. -/
def processGame (sink : String → String) (s : Store) (g : RawGame) :
    Store × List String :=
  if is_game_exported s g.uuid then (s, [])
  else (insertGame (buildGameRow (sink g.pgn) g) s, [g.uuid])

/-- The whole per-game loop of `export_month`, accumulating sink submissions. -/
def processGames (sink : String → String) : List RawGame → Store → Store × List String
  | [], s => (s, [])
  | g :: gs, s =>
    let r := processGame sink s g
    let r2 := processGames sink gs r.1
    (r2.1, r.2 ++ r2.2)

/-- The guarded month insert of `export_month` (cc2lc.py lines 159-161):
`if not is_month_inserted(conn, month): INSERT INTO months ...`. -/
def markMonth (m : Month) (s : Store) : Store :=
  if is_month_inserted s m then s else { s with months := s.months ++ [m] }

/-- One iteration of the linking loop of `export_month` (cc2lc.py lines
164-169): look up the game id for a uuid and insert the `month_games` row
unless one already exists for that game id. -/
def linkGame (mid : Nat) (s : Store) (uuid : String) : Option Store :=
  match gameIdOf s uuid with
  | none => none
  | some gid =>
    if is_game_associated s gid then some s
    else some { s with month_games := s.month_games ++ [(gid, mid)] }

/-- The whole linking loop of `export_month` over the collected uuid list. -/
def linkGames (mid : Nat) : List String → Store → Option Store
  | [], s => some s
  | u :: us, s =>
    match linkGame mid s u with
    | none => none
    | some s1 => linkGames mid us s1

/-- `export_month` (cc2lc.py lines 120-170) after the games for the month were
fetched: run the per-game loop, then the guarded month insert, then look up
the month id and run the linking loop.  Returns the new store and the uuids
submitted to the sink. -/
def export_month (sink : String → String) (m : Month) (games : List RawGame)
    (s : Store) : Option (Store × List String) :=
  let r := processGames sink games s
  let s2 := markMonth m r.1
  match monthIdOf s2 m with
  | none => none
  | some mid =>
    match linkGames mid (games.map RawGame.uuid) s2 with
    | none => none
    | some s3 => some (s3, r.2)

/-- The main loop (cc2lc.py lines 191-192): call `export_month` for every
archive month in listing order.  Besides the final store and the sink
submissions it returns the list of months that were fetched and processed. -/
def runSync (sink : String → String) :
    List (Month × List RawGame) → Store → Option (Store × List String × List Month)
  | [], s => some (s, [], [])
  | (m, gs) :: rest, s =>
    match export_month sink m gs s with
    | none => none
    | some (s1, c1) =>
      match runSync sink rest s1 with
      | none => none
      | some (s2, c2, f2) => some (s2, c1 ++ c2, m :: f2)

/-! ## Helper lemmas about lookups -/

theorem monthEq_self (m : Month) : monthEq m m = true := by
  simp [monthEq]

theorem monthEq_iff (a b : Month) : monthEq a b = true ↔ a = b := by
  cases a; cases b
  simp [monthEq, Month.mk.injEq, and_comm]

theorem firstIdx_append_some {α : Type} {p : α → Bool} {l₁ l₂ : List α} {i : Nat}
    (h : firstIdx p l₁ = some i) : firstIdx p (l₁ ++ l₂) = some i := by
  induction l₁ generalizing i with
  | nil => simp [firstIdx] at h
  | cons a as ih =>
    by_cases hp : p a
    · simp [firstIdx, hp] at h ⊢
      omega
    · cases hfi : firstIdx p as with
      | none => simp [firstIdx, hp, hfi] at h
      | some j =>
        simp [firstIdx, hp, hfi] at h
        simp [firstIdx, hp, ih hfi]
        omega

theorem firstIdx_isSome_of_any {α : Type} {p : α → Bool} {l : List α}
    (h : l.any p = true) : ∃ i, firstIdx p l = some i := by
  induction l with
  | nil => simp at h
  | cons a as ih =>
    by_cases hp : p a
    · exact ⟨0, by simp [firstIdx, hp]⟩
    · simp only [List.any_cons, hp, Bool.false_or] at h
      obtain ⟨i, hi⟩ := ih h
      exact ⟨i + 1, by simp [firstIdx, hp, hi]⟩

/-! ## Store extension: every engine operation only appends rows -/

/-- `t` extends `s`: each table of `t` is that of `s` with rows appended. -/
def StoreExt (s t : Store) : Prop :=
  (∃ l, t.games = s.games ++ l) ∧ (∃ l, t.months = s.months ++ l) ∧
    (∃ l, t.month_games = s.month_games ++ l)

theorem StoreExt.refl (s : Store) : StoreExt s s :=
  ⟨⟨[], by simp⟩, ⟨[], by simp⟩, ⟨[], by simp⟩⟩

theorem StoreExt.trans {s t u : Store} (h1 : StoreExt s t) (h2 : StoreExt t u) :
    StoreExt s u := by
  obtain ⟨⟨a1, ha1⟩, ⟨b1, hb1⟩, ⟨c1, hc1⟩⟩ := h1
  obtain ⟨⟨a2, ha2⟩, ⟨b2, hb2⟩, ⟨c2, hc2⟩⟩ := h2
  exact ⟨⟨a1 ++ a2, by simp [ha2, ha1]⟩, ⟨b1 ++ b2, by simp [hb2, hb1]⟩,
    ⟨c1 ++ c2, by simp [hc2, hc1]⟩⟩

theorem is_game_exported_mono {s t : Store} {u : String} (hst : StoreExt s t)
    (h : is_game_exported s u = true) : is_game_exported t u = true := by
  obtain ⟨⟨l, hl⟩, -, -⟩ := hst
  unfold is_game_exported at h ⊢
  rw [hl, List.any_append, h, Bool.true_or]

theorem is_month_inserted_mono {s t : Store} {m : Month} (hst : StoreExt s t)
    (h : is_month_inserted s m = true) : is_month_inserted t m = true := by
  obtain ⟨-, ⟨l, hl⟩, -⟩ := hst
  unfold is_month_inserted at h ⊢
  rw [hl, List.any_append, h, Bool.true_or]

theorem is_game_associated_mono {s t : Store} {gid : Nat} (hst : StoreExt s t)
    (h : is_game_associated s gid = true) : is_game_associated t gid = true := by
  obtain ⟨-, -, ⟨l, hl⟩⟩ := hst
  unfold is_game_associated at h ⊢
  rw [hl, List.any_append, h, Bool.true_or]

theorem gameIdOf_mono {s t : Store} {u : String} {i : Nat} (hst : StoreExt s t)
    (h : gameIdOf s u = some i) : gameIdOf t u = some i := by
  obtain ⟨⟨l, hl⟩, -, -⟩ := hst
  unfold gameIdOf at h ⊢
  rw [hl]
  exact firstIdx_append_some h

theorem gameIdOf_isSome_of_exported {s : Store} {u : String}
    (h : is_game_exported s u = true) : ∃ i, gameIdOf s u = some i :=
  firstIdx_isSome_of_any h

theorem monthIdOf_isSome_of_inserted {s : Store} {m : Month}
    (h : is_month_inserted s m = true) : ∃ i, monthIdOf s m = some i :=
  firstIdx_isSome_of_any h

theorem StoreExt.append_games (s : Store) (l : List GameRow) :
    StoreExt s { s with games := s.games ++ l } :=
  ⟨⟨l, rfl⟩, ⟨[], by simp⟩, ⟨[], by simp⟩⟩

theorem StoreExt.append_months (s : Store) (l : List Month) :
    StoreExt s { s with months := s.months ++ l } :=
  ⟨⟨[], by simp⟩, ⟨l, rfl⟩, ⟨[], by simp⟩⟩

theorem StoreExt.append_links (s : Store) (l : List (Nat × Nat)) :
    StoreExt s { s with month_games := s.month_games ++ l } :=
  ⟨⟨[], by simp⟩, ⟨[], by simp⟩, ⟨l, rfl⟩⟩

theorem is_game_exported_congr {s t : Store} (h : t.games = s.games) (u : String) :
    is_game_exported t u = is_game_exported s u := by
  simp [is_game_exported, h]

theorem is_month_inserted_congr {s t : Store} (h : t.months = s.months) (m : Month) :
    is_month_inserted t m = is_month_inserted s m := by
  simp [is_month_inserted, h]

theorem gameIdOf_congr {s t : Store} (h : t.games = s.games) (u : String) :
    gameIdOf t u = gameIdOf s u := by
  simp [gameIdOf, h]

/-! ## Effects of the per-game loop -/

theorem processGame_ext (sink : String → String) (s : Store) (g : RawGame) :
    StoreExt s (processGame sink s g).1 := by
  cases hc : is_game_exported s g.uuid with
  | true =>
    simp only [processGame, hc, if_true]
    exact StoreExt.refl s
  | false =>
    simp only [processGame, hc, Bool.false_eq_true, if_false, insertGame]
    exact StoreExt.append_games s _

theorem processGame_games_or (sink : String → String) (s : Store) (g : RawGame) :
    (processGame sink s g).1.games = s.games ∨
      (processGame sink s g).1.games =
        s.games ++ [buildGameRow (sink g.pgn) g] := by
  cases hc : is_game_exported s g.uuid with
  | true => simp [processGame, hc]
  | false => simp [processGame, hc, insertGame]

theorem processGame_months (sink : String → String) (s : Store) (g : RawGame) :
    (processGame sink s g).1.months = s.months := by
  cases hc : is_game_exported s g.uuid with
  | true => simp [processGame, hc]
  | false => simp [processGame, hc, insertGame]

theorem processGame_month_games (sink : String → String) (s : Store) (g : RawGame) :
    (processGame sink s g).1.month_games = s.month_games := by
  cases hc : is_game_exported s g.uuid with
  | true => simp [processGame, hc]
  | false => simp [processGame, hc, insertGame]

theorem processGame_exports (sink : String → String) (s : Store) (g : RawGame) :
    is_game_exported (processGame sink s g).1 g.uuid = true := by
  cases hc : is_game_exported s g.uuid with
  | true =>
    simp only [processGame, hc, if_true]
  | false =>
    simp only [processGame, hc, Bool.false_eq_true, if_false]
    simp [insertGame, is_game_exported, List.any_append, buildGameRow]

theorem processGames_ext (sink : String → String) (gs : List RawGame) (s : Store) :
    StoreExt s (processGames sink gs s).1 := by
  induction gs generalizing s with
  | nil => exact StoreExt.refl s
  | cons g gs ih =>
    exact (processGame_ext sink s g).trans (ih (processGame sink s g).1)

theorem processGames_months (sink : String → String) (gs : List RawGame) (s : Store) :
    (processGames sink gs s).1.months = s.months := by
  induction gs generalizing s with
  | nil => rfl
  | cons g gs ih =>
    calc (processGames sink gs (processGame sink s g).1).1.months
        = (processGame sink s g).1.months := ih _
      _ = s.months := processGame_months sink s g

theorem processGames_month_games (sink : String → String) (gs : List RawGame)
    (s : Store) : (processGames sink gs s).1.month_games = s.month_games := by
  induction gs generalizing s with
  | nil => rfl
  | cons g gs ih =>
    calc (processGames sink gs (processGame sink s g).1).1.month_games
        = (processGame sink s g).1.month_games := ih _
      _ = s.month_games := processGame_month_games sink s g

theorem processGames_exports_all (sink : String → String) (gs : List RawGame)
    (s : Store) :
    ∀ g ∈ gs, is_game_exported (processGames sink gs s).1 g.uuid = true := by
  induction gs generalizing s with
  | nil => intro g hg; simp at hg
  | cons g0 gs ih =>
    intro g hg
    rcases List.mem_cons.mp hg with rfl | hg'
    · exact is_game_exported_mono (processGames_ext sink gs _)
        (processGame_exports sink s g)
    · exact ih (processGame sink s g0).1 g hg'

theorem processGames_noop (sink : String → String) (gs : List RawGame) (s : Store)
    (h : ∀ g ∈ gs, is_game_exported s g.uuid = true) :
    processGames sink gs s = (s, []) := by
  induction gs with
  | nil => rfl
  | cons g gs ih =>
    have hg : is_game_exported s g.uuid = true := h g (List.mem_cons_self g gs)
    have hrest := ih (fun g' hg' => h g' (List.mem_cons_of_mem _ hg'))
    simp [processGames, processGame, hg, hrest]

/-! ## Effects of the month insert and the linking loop -/

theorem markMonth_ext (m : Month) (s : Store) : StoreExt s (markMonth m s) := by
  cases hc : is_month_inserted s m with
  | true =>
    simp only [markMonth, hc, if_true]
    exact StoreExt.refl s
  | false =>
    simp only [markMonth, hc, Bool.false_eq_true, if_false]
    exact StoreExt.append_months s _

theorem markMonth_games (m : Month) (s : Store) : (markMonth m s).games = s.games := by
  unfold markMonth
  split <;> rfl

theorem markMonth_month_games (m : Month) (s : Store) :
    (markMonth m s).month_games = s.month_games := by
  unfold markMonth
  split <;> rfl

theorem markMonth_inserted (m : Month) (s : Store) :
    is_month_inserted (markMonth m s) m = true := by
  cases hc : is_month_inserted s m with
  | true =>
    simp only [markMonth, hc, if_true]
  | false =>
    simp only [markMonth, hc, Bool.false_eq_true, if_false]
    simp [is_month_inserted, List.any_append, monthEq_self]

theorem markMonth_noop (m : Month) (s : Store) (h : is_month_inserted s m = true) :
    markMonth m s = s := by
  simp [markMonth, h]

theorem linkGame_tables {mid : Nat} {s t : Store} {u : String}
    (h : linkGame mid s u = some t) :
    t.games = s.games ∧ t.months = s.months ∧ StoreExt s t := by
  unfold linkGame at h
  cases hg : gameIdOf s u with
  | none => rw [hg] at h; simp at h
  | some gid =>
    rw [hg] at h
    cases ha : is_game_associated s gid with
    | true =>
      simp [ha] at h
      subst h
      exact ⟨rfl, rfl, StoreExt.refl s⟩
    | false =>
      simp [ha] at h
      subst h
      exact ⟨rfl, rfl, StoreExt.append_links s _⟩

/-! ## Store invariants: uuid uniqueness, link uniqueness -/

/-- No two `games` rows share a uuid. -/
def uuidNodup (s : Store) : Prop := (s.games.map GameRow.uuid).Nodup

/-- No two `month_games` rows share a game id. -/
def linkNodup (s : Store) : Prop := (s.month_games.map Prod.fst).Nodup

theorem nodup_append_singleton {α : Type} {l : List α} {a : α}
    (h : l.Nodup) (ha : a ∉ l) : (l ++ [a]).Nodup := by
  simp [List.nodup_append, h, ha]

theorem uuidNodup_congr {s t : Store} (h : t.games = s.games) :
    uuidNodup t ↔ uuidNodup s := by
  unfold uuidNodup
  rw [h]

theorem linkNodup_congr {s t : Store} (h : t.month_games = s.month_games) :
    linkNodup t ↔ linkNodup s := by
  unfold linkNodup
  rw [h]

theorem buildGameRow_uuid (x : String) (g : RawGame) :
    (buildGameRow x g).uuid = g.uuid := rfl

theorem processGame_uuidNodup (sink : String → String) (s : Store) (g : RawGame)
    (h : uuidNodup s) : uuidNodup (processGame sink s g).1 := by
  cases hc : is_game_exported s g.uuid with
  | true => simpa [processGame, hc] using h
  | false =>
    simp only [processGame, hc, Bool.false_eq_true, if_false]
    unfold uuidNodup at h ⊢
    simp only [insertGame, List.map_append, List.map_cons, List.map_nil]
    refine nodup_append_singleton h ?_
    intro hmem
    obtain ⟨r, hr, hru⟩ := List.mem_map.mp hmem
    rw [buildGameRow_uuid] at hru
    have : is_game_exported s g.uuid = true := by
      unfold is_game_exported
      exact List.any_eq_true.mpr ⟨r, hr, by simp [hru]⟩
    rw [this] at hc
    cases hc

theorem processGames_uuidNodup (sink : String → String) (gs : List RawGame)
    (s : Store) (h : uuidNodup s) : uuidNodup (processGames sink gs s).1 := by
  induction gs generalizing s with
  | nil => exact h
  | cons g gs ih =>
    exact ih (processGame sink s g).1 (processGame_uuidNodup sink s g h)

/-! ## The linking loop -/

theorem linkGame_step (mid : Nat) {s : Store} {u : String} {gid : Nat}
    (hgid : gameIdOf s u = some gid) :
    ∃ t, linkGame mid s u = some t ∧ StoreExt s t ∧ t.games = s.games ∧
      t.months = s.months ∧ (linkNodup s → linkNodup t) ∧
      is_game_associated t gid = true := by
  cases ha : is_game_associated s gid with
  | true =>
    refine ⟨s, ?_, StoreExt.refl s, rfl, rfl, fun hn => hn, ha⟩
    simp [linkGame, hgid, ha]
  | false =>
    refine ⟨{ s with month_games := s.month_games ++ [(gid, mid)] }, ?_,
      StoreExt.append_links s _, rfl, rfl, ?_, ?_⟩
    · simp [linkGame, hgid, ha]
    · intro hn
      unfold linkNodup at hn ⊢
      simp only [List.map_append, List.map_cons, List.map_nil]
      refine nodup_append_singleton hn ?_
      intro hmem
      obtain ⟨x, hx, hfst⟩ := List.mem_map.mp hmem
      have : is_game_associated s gid = true := by
        unfold is_game_associated
        exact List.any_eq_true.mpr ⟨x, hx, by simp [hfst]⟩
      rw [this] at ha
      cases ha
    · simp [is_game_associated, List.any_append]

theorem linkGames_spec (mid : Nat) (us : List String) (s : Store)
    (h : ∀ u ∈ us, is_game_exported s u = true) :
    ∃ t, linkGames mid us s = some t ∧ StoreExt s t ∧ t.games = s.games ∧
      t.months = s.months ∧ (linkNodup s → linkNodup t) ∧
      ∀ u ∈ us, ∃ gid, gameIdOf t u = some gid ∧ is_game_associated t gid = true := by
  induction us generalizing s with
  | nil => exact ⟨s, rfl, StoreExt.refl s, rfl, rfl, fun hn => hn, by simp⟩
  | cons u us ih =>
    have hu := h u (List.mem_cons_self u us)
    obtain ⟨gid, hgid⟩ := gameIdOf_isSome_of_exported hu
    obtain ⟨s1, hlg, hext1, hg1, hm1, hnd1, hassoc1⟩ := linkGame_step mid hgid
    have h1 : ∀ u' ∈ us, is_game_exported s1 u' = true := by
      intro u' hu'
      rw [is_game_exported_congr hg1]
      exact h u' (List.mem_cons_of_mem _ hu')
    obtain ⟨t, ht, hext2, hg2, hm2, hnd2, hall⟩ := ih s1 h1
    refine ⟨t, ?_, hext1.trans hext2, hg2.trans hg1, hm2.trans hm1,
      fun hn => hnd2 (hnd1 hn), ?_⟩
    · simp [linkGames, hlg, ht]
    · intro u' hu'
      rcases List.mem_cons.mp hu' with rfl | hmem
      · refine ⟨gid, ?_, is_game_associated_mono hext2 hassoc1⟩
        rw [gameIdOf_congr hg2, gameIdOf_congr hg1]
        exact hgid
      · exact hall u' hmem

theorem linkGames_noop (mid : Nat) (us : List String) (s : Store)
    (h : ∀ u ∈ us, ∃ gid, gameIdOf s u = some gid ∧ is_game_associated s gid = true) :
    linkGames mid us s = some s := by
  induction us with
  | nil => rfl
  | cons u us ih =>
    obtain ⟨gid, hgid, ha⟩ := h u (List.mem_cons_self u us)
    have hlg : linkGame mid s u = some s := by simp [linkGame, hgid, ha]
    simp [linkGames, hlg, ih (fun u' hu' => h u' (List.mem_cons_of_mem _ hu'))]

/-! ## Post-state of `export_month` and `runSync` -/

/-- All effects of `export_month` for month `m` with fetched games `gs` are
present in store `t`: every fetched game is recorded, the completion row
exists, and every fetched game's id carries a `month_games` link. -/
def monthDone (m : Month) (gs : List RawGame) (t : Store) : Prop :=
  (∀ g ∈ gs, is_game_exported t g.uuid = true) ∧
    is_month_inserted t m = true ∧
    ∀ g ∈ gs, ∃ gid, gameIdOf t g.uuid = some gid ∧ is_game_associated t gid = true

theorem monthDone_mono {m : Month} {gs : List RawGame} {t t' : Store}
    (hext : StoreExt t t') (h : monthDone m gs t) : monthDone m gs t' := by
  obtain ⟨h1, h2, h3⟩ := h
  refine ⟨fun g hg => is_game_exported_mono hext (h1 g hg),
    is_month_inserted_mono hext h2, fun g hg => ?_⟩
  obtain ⟨gid, hgid, ha⟩ := h3 g hg
  exact ⟨gid, gameIdOf_mono hext hgid, is_game_associated_mono hext ha⟩

theorem export_month_spec (sink : String → String) (m : Month) (gs : List RawGame)
    (s : Store) :
    ∃ t calls, export_month sink m gs s = some (t, calls) ∧ StoreExt s t ∧
      monthDone m gs t ∧ (uuidNodup s → uuidNodup t) ∧
      (linkNodup s → linkNodup t) := by
  have hexp1 := processGames_exports_all sink gs s
  have hexp2 : ∀ g ∈ gs,
      is_game_exported (markMonth m (processGames sink gs s).1) g.uuid = true := by
    intro g hg
    rw [is_game_exported_congr (markMonth_games m _)]
    exact hexp1 g hg
  have hins2 : is_month_inserted (markMonth m (processGames sink gs s).1) m = true :=
    markMonth_inserted m _
  obtain ⟨mid, hmid⟩ := monthIdOf_isSome_of_inserted hins2
  have hexpu : ∀ u ∈ gs.map RawGame.uuid,
      is_game_exported (markMonth m (processGames sink gs s).1) u = true := by
    intro u hu
    obtain ⟨g, hg, rfl⟩ := List.mem_map.mp hu
    exact hexp2 g hg
  obtain ⟨t, hlink, hext3, hg3, hm3, hnd3, hall⟩ :=
    linkGames_spec mid (gs.map RawGame.uuid)
      (markMonth m (processGames sink gs s).1) hexpu
  refine ⟨t, (processGames sink gs s).2, ?_, ?_, ⟨fun g hg => ?_, ?_, fun g hg => ?_⟩,
    ?_, ?_⟩
  · simp [export_month, hmid, hlink]
  · exact ((processGames_ext sink gs s).trans (markMonth_ext m _)).trans hext3
  · rw [is_game_exported_congr hg3]
    exact hexp2 g hg
  · rw [is_month_inserted_congr hm3]
    exact hins2
  · exact hall g.uuid (List.mem_map_of_mem RawGame.uuid hg)
  · intro hn
    exact (uuidNodup_congr (hg3.trans (markMonth_games m _))).mpr
      (processGames_uuidNodup sink gs s hn)
  · intro hn
    apply hnd3
    rw [linkNodup_congr
      ((markMonth_month_games m _).trans (processGames_month_games sink gs s))]
    exact hn

theorem export_month_noop (sink : String → String) (m : Month) (gs : List RawGame)
    (s : Store) (h : monthDone m gs s) :
    export_month sink m gs s = some (s, []) := by
  obtain ⟨h1, h2, h3⟩ := h
  have hpn : processGames sink gs s = (s, []) := processGames_noop sink gs s h1
  have hmm : markMonth m s = s := markMonth_noop m s h2
  obtain ⟨mid, hmid⟩ := monthIdOf_isSome_of_inserted h2
  have hlink : linkGames mid (gs.map RawGame.uuid) s = some s := by
    apply linkGames_noop
    intro u hu
    obtain ⟨g, hg, rfl⟩ := List.mem_map.mp hu
    exact h3 g hg
  simp [export_month, hpn, hmm, hmid, hlink]

theorem runSync_spec (sink : String → String) (src : List (Month × List RawGame))
    (s : Store) :
    ∃ t calls, runSync sink src s = some (t, calls, src.map Prod.fst) ∧
      StoreExt s t ∧ (∀ p ∈ src, monthDone p.1 p.2 t) ∧
      (uuidNodup s → uuidNodup t) ∧ (linkNodup s → linkNodup t) := by
  induction src generalizing s with
  | nil => exact ⟨s, [], rfl, StoreExt.refl s, by simp, fun h => h, fun h => h⟩
  | cons p rest ih =>
    obtain ⟨m, gs⟩ := p
    obtain ⟨t1, c1, h1, hext1, hdone1, hnu1, hnl1⟩ := export_month_spec sink m gs s
    obtain ⟨t2, c2, h2, hext2, hdone2, hnu2, hnl2⟩ := ih t1
    refine ⟨t2, c1 ++ c2, ?_, hext1.trans hext2, ?_, fun h => hnu2 (hnu1 h),
      fun h => hnl2 (hnl1 h)⟩
    · simp [runSync, h1, h2]
    · intro q hq
      rcases List.mem_cons.mp hq with rfl | hq'
      · exact monthDone_mono hext2 hdone1
      · exact hdone2 q hq'

theorem runSync_noop (sink : String → String) (src : List (Month × List RawGame))
    (s : Store) (h : ∀ p ∈ src, monthDone p.1 p.2 s) :
    runSync sink src s = some (s, [], src.map Prod.fst) := by
  induction src with
  | nil => rfl
  | cons p rest ih =>
    obtain ⟨m, gs⟩ := p
    have h1 := export_month_noop sink m gs s (h (m, gs) (List.mem_cons_self _ _))
    simp [runSync, h1, ih (fun q hq => h q (List.mem_cons_of_mem _ hq))]

/-! ## Splitting urls -/

theorem pySplit_ne_nil (sep : Char) (cs : List Char) : pySplit sep cs ≠ [] := by
  induction cs with
  | nil => simp [pySplit]
  | cons c rest ih =>
    by_cases hc : c = sep
    · simp [pySplit, hc]
    · simp only [pySplit, hc, if_false]
      cases hps : pySplit sep rest with
      | nil => simp
      | cons p ps => simp

theorem pySplit_no_sep (sep : Char) (cs : List Char) (h : sep ∉ cs) :
    pySplit sep cs = [cs] := by
  induction cs with
  | nil => rfl
  | cons c rest ih =>
    have hc : ¬c = sep := by
      intro he
      subst he
      exact h (List.mem_cons_self c rest)
    have hrest : sep ∉ rest := fun hm => h (List.mem_cons_of_mem c hm)
    simp [pySplit, hc, ih hrest]

theorem pySplit_append_sep (sep : Char) (a b : List Char) (hb : sep ∉ b) :
    pySplit sep (a ++ sep :: b) = pySplit sep a ++ [b] := by
  induction a with
  | nil => simp [pySplit, pySplit_no_sep sep b hb]
  | cons c a ih =>
    by_cases hc : c = sep
    · subst hc
      simp [pySplit, ih]
    · simp only [List.cons_append, pySplit, hc, if_false]
      have ih' : pySplit sep (a.append (sep :: b)) = pySplit sep a ++ [b] := ih
      rw [ih']
      cases hps : pySplit sep a with
      | nil => exact absurd hps (pySplit_ne_nil sep a)
      | cons p ps => simp [hps]

/-! ## The rate-limit retry loop -/

theorem export_to_lc_replicate (k : Nat) (junk url : String) :
    export_to_lc (List.replicate k ⟨429, junk⟩ ++ [⟨200, url⟩]) =
      some (.ok url, 61 * k) := by
  induction k with
  | zero => rfl
  | succ k ih =>
    have harith : 61 + 61 * k = 61 * (k + 1) := by ring
    simp [List.replicate_succ, export_to_lc, ih, harith]

theorem export_to_lc_no_rate_limit_error (resps : List HttpResponse) (st n : Nat)
    (h : export_to_lc resps = some (.rejected st, n)) : st ≠ 429 := by
  induction resps generalizing n with
  | nil => simp [export_to_lc] at h
  | cons r rest ih =>
    cases hr : (r.status == 429) with
    | true =>
      simp only [export_to_lc, hr, if_true] at h
      cases hrec : export_to_lc rest with
      | none => rw [hrec] at h; simp at h
      | some p =>
        obtain ⟨out, slept⟩ := p
        rw [hrec] at h
        simp only [Option.some.injEq, Prod.mk.injEq] at h
        obtain ⟨h1, -⟩ := h
        exact ih slept (by rw [hrec, h1])
    | false =>
      simp only [export_to_lc, hr, Bool.false_eq_true, if_false] at h
      by_cases hrange : 400 ≤ r.status ∧ r.status < 600
      · rw [if_pos hrange] at h
        simp only [Option.some.injEq, Prod.mk.injEq, SinkOutcome.rejected.injEq] at h
        obtain ⟨h1, -⟩ := h
        intro he
        rw [h1, he] at hr
        simp at hr
      · rw [if_neg hrange] at h
        simp at h

/-! ## Concrete data used by counterexamples and witnesses -/

/-- A small raw game with the given uuid, used in concrete scenarios. -/
def sampleGame (u : String) : RawGame :=
  { uuid := u, pgn := "1. e4", url := "cc://" ++ u, time_control := "600",
    white_username := "w", white_id := "cc://member/w", white_rating := 1000,
    white_result := "win", black_username := "b", black_id := "cc://member/b",
    black_rating := 900, black_result := "checkmated" }

/-- A deterministic sink for concrete runs. -/
def csink : String → String := fun _ => "lc://new"

/-- A store in which partition 2023-01 is recorded complete and its game g1 is
recorded and linked. -/
def c1s0 : Store :=
  { games := [buildGameRow ("lc://g1") (sampleGame ("g1"))],
    months := [⟨1, 2023⟩],
    month_games := [(0, 0)] }

/-- A source listing two partitions: completed 2023-01 (now holding a new game
g2) and the most recent 2023-02. -/
def c1src : List (Month × List RawGame) :=
  [(⟨1, 2023⟩, [sampleGame ("g1"), sampleGame ("g2")]), (⟨2, 2023⟩, [])]

/-- The store the run over `c1src` from `c1s0` produces. -/
def c1t : Store :=
  { games := [buildGameRow ("lc://g1") (sampleGame ("g1")),
      buildGameRow ("lc://new") (sampleGame ("g2"))],
    months := [⟨1, 2023⟩, ⟨2, 2023⟩],
    month_games := [(0, 0), (1, 0)] }

/-! ## C1 -/

/-- C1 counterexample: partition 2023-01 is recorded complete in `c1s0` and is
not the most recent listed partition (2023-02 is strictly later), yet the run
fetches and processes it: it appears in the fetched-months trace and its new
game g2 is even submitted to the sink.  The main loop never consults
`is_month_inserted` and never special-cases the most recent month. -/
theorem completed_partition_still_fetched :
    is_month_inserted c1s0 ⟨1, 2023⟩ = true ∧
      monthEq ⟨1, 2023⟩ ⟨2, 2023⟩ = false ∧
      specMonthLt ⟨1, 2023⟩ ⟨2, 2023⟩ = true ∧
      runSync csink c1src c1s0 =
        some (c1t, [("g2")], [⟨1, 2023⟩, ⟨2, 2023⟩]) := by
  decide

/-- C1 amended: every run of the engine fetches and processes every listed
partition, in listing order, regardless of recorded completion status; in
particular the most recent partition is always fetched and processed. -/
theorem runSync_fetches_every_partition (sink : String → String)
    (src : List (Month × List RawGame)) (s t : Store) (calls : List String)
    (fetched : List Month)
    (h : runSync sink src s = some (t, calls, fetched)) :
    fetched = src.map Prod.fst := by
  obtain ⟨t', c', h', -, -, -, -⟩ := runSync_spec sink src s
  rw [h] at h'
  simp only [Option.some.injEq, Prod.mk.injEq] at h'
  exact h'.2.2

/-- Witness for the amended C1 theorem at a concrete run. -/
theorem runSync_fetches_every_partition_witness :
    [(⟨2, 2023⟩ : Month)] = ([((⟨2, 2023⟩ : Month), ([] : List RawGame))]).map Prod.fst :=
  runSync_fetches_every_partition csink [(⟨2, 2023⟩, [])] ⟨[], [], []⟩
    ⟨[], [⟨2, 2023⟩], []⟩ [] [⟨2, 2023⟩] (by decide)

/-! ## C2 -/

/-- C2: running the full synchronization twice against an unchanged source is
the same as running it once.  If the first run from a store with unique game
uuids and unique link game-ids ends in store `t`, then the second run returns
`t` unchanged and submits nothing to the sink, and `t` still has no duplicate
game record per uuid and no duplicate partition-game link per game id. -/
theorem sync_idempotent (sink : String → String)
    (src : List (Month × List RawGame)) (s t : Store) (calls : List String)
    (fetched : List Month)
    (h : runSync sink src s = some (t, calls, fetched))
    (hu : uuidNodup s) (hl : linkNodup s) :
    runSync sink src t = some (t, [], src.map Prod.fst) ∧
      uuidNodup t ∧ linkNodup t := by
  obtain ⟨t', c', h', hext, hdone, hnu, hnl⟩ := runSync_spec sink src s
  rw [h] at h'
  simp only [Option.some.injEq, Prod.mk.injEq] at h'
  obtain ⟨ht', -, -⟩ := h'
  subst ht'
  exact ⟨runSync_noop sink src t hdone, hnu hu, hnl hl⟩

/-- The source used by the C2 witness. -/
def c2src : List (Month × List RawGame) := [(⟨1, 2023⟩, [sampleGame ("g1")])]

/-- The store the C2 witness run produces from the empty store. -/
def c2t : Store :=
  { games := [buildGameRow ("lc://new") (sampleGame ("g1"))],
    months := [⟨1, 2023⟩],
    month_games := [(0, 0)] }

/-- Witness for C2 at a concrete run from the empty store. -/
theorem sync_idempotent_witness :
    runSync csink c2src c2t = some (c2t, [], c2src.map Prod.fst) ∧
      uuidNodup c2t ∧ linkNodup c2t :=
  sync_idempotent csink c2src ⟨[], [], []⟩ c2t [("g1")] [⟨1, 2023⟩] (by decide)
    (List.Pairwise.nil) (List.Pairwise.nil)

/-! ## C3 -/

/-- C3: the comparator defect.  `Month.__lt__` falls through to the month
comparison even when the years differ, so both 2022-12 < 2023-01 and
2023-01 < 2022-12 hold, violating the claimed year-major order (under which
the latter is false, as `specMonthLt` shows). -/
theorem monthLt_asymmetry_violation :
    monthLt ⟨12, 2022⟩ ⟨1, 2023⟩ = true ∧
      monthLt ⟨1, 2023⟩ ⟨12, 2022⟩ = true ∧
      specMonthLt ⟨1, 2023⟩ ⟨12, 2022⟩ = false ∧
      monthLt ⟨1, 2023⟩ ⟨1, 2024⟩ = true := by
  decide

/-! ## C4 -/

/-- C4: `most_recent_month` keeps the index of the month that compares `<` to
the kept one, so it returns the index of the earliest month, not the maximum:
on [2024-01, 2023-01] it returns index 1 (2023-01), although 2023-01 precedes
2024-01 in the year-major order; and on the empty list it returns 0 instead
of failing. -/
theorem most_recent_month_returns_earliest :
    most_recent_month [⟨1, 2024⟩, ⟨1, 2023⟩] = 1 ∧
      specMonthLt ⟨1, 2023⟩ ⟨1, 2024⟩ = true ∧
      most_recent_month [] = 0 := by
  decide

/-! ## C5 -/

/-- C5: the completion row for a partition is written only after the per-game
loop has recorded every fetched game: the store produced by the per-game loop
(the one `markMonth`, i.e. the completion insert, is applied to inside
`export_month`) already has every fetched game recorded; and in the final
store the completion row exists and every fetched game is recorded. -/
theorem completion_after_games_recorded (sink : String → String) (m : Month)
    (gs : List RawGame) (s t : Store) (calls : List String) (g : RawGame)
    (h : export_month sink m gs s = some (t, calls)) (hg : g ∈ gs) :
    is_game_exported (processGames sink gs s).1 g.uuid = true ∧
      is_month_inserted t m = true ∧
      is_game_exported t g.uuid = true := by
  obtain ⟨t', c', h', -, hdone, -, -⟩ := export_month_spec sink m gs s
  rw [h] at h'
  simp only [Option.some.injEq, Prod.mk.injEq] at h'
  obtain ⟨ht', -⟩ := h'
  subst ht'
  exact ⟨processGames_exports_all sink gs s g hg, hdone.2.1, hdone.1 g hg⟩

/-- Witness for C5 at a concrete month export from the empty store. -/
theorem completion_after_games_recorded_witness :
    is_game_exported (processGames csink [sampleGame ("g1")] ⟨[], [], []⟩).1
        (sampleGame ("g1")).uuid = true ∧
      is_month_inserted c2t ⟨1, 2023⟩ = true ∧
      is_game_exported c2t (sampleGame ("g1")).uuid = true :=
  completion_after_games_recorded csink ⟨1, 2023⟩ [sampleGame ("g1")] ⟨[], [], []⟩
    c2t [("g1")] (sampleGame ("g1")) (by decide) (by decide)

/-! ## C6 -/

/-- C6: the sink wrapper retries on rate limiting and on nothing else.  After
any finite number k of 429 responses followed by a success, `export_to_lc`
returns the eventual success url having slept 61 seconds (at least 60) before
each of the k retries; a non-429 error status fails immediately with that
status and no sleep, not consuming any further response; and no run of
`export_to_lc` ever reports 429 as the rejection status. -/
theorem export_to_lc_retry (k : Nat) (url junk junk2 : String) (status : Nat)
    (rest resps2 : List HttpResponse) (st2 n2 : Nat)
    (h1 : 400 ≤ status) (h2 : status < 600) (h3 : status ≠ 429)
    (h4 : export_to_lc resps2 = some (.rejected st2, n2)) :
    export_to_lc (List.replicate k ⟨429, junk⟩ ++ [⟨200, url⟩]) =
        some (.ok url, 61 * k) ∧
      export_to_lc (⟨status, junk2⟩ :: rest) = some (.rejected status, 0) ∧
      st2 ≠ 429 ∧ 60 * k ≤ 61 * k := by
  refine ⟨export_to_lc_replicate k junk url, ?_,
    export_to_lc_no_rate_limit_error resps2 st2 n2 h4, by omega⟩
  have hb : (status == 429) = false := by simp [h3]
  simp [export_to_lc, hb, h1, h2]

/-- Witness for C6: rate-limited twice then success; a 500 fails at once. -/
theorem export_to_lc_retry_witness :
    export_to_lc (List.replicate 2 ⟨429, "j"⟩ ++ [⟨200, "u"⟩]) =
        some (.ok ("u"), 61 * 2) ∧
      export_to_lc (⟨500, "j"⟩ :: []) = some (.rejected 500, 0) ∧
      (500 : Nat) ≠ 429 ∧ 60 * 2 ≤ 61 * 2 :=
  export_to_lc_retry 2 ("u") ("j") ("j") 500 [] [⟨500, "j"⟩] 500 0 (by decide)
    (by decide) (by decide) (by decide)

/-! ## C7 -/

/-- C7: the guarded month insert is idempotent.  From a store with no
completion record for `m`, applying it twice equals applying it once and
leaves exactly one completion record for `m`; and on any store already
containing a completion record for `m` it is a silent no-op. -/
theorem markMonth_idempotent (m : Month) (s t : Store)
    (h : s.months.countP (fun r => monthEq r m) = 0)
    (ht : is_month_inserted t m = true) :
    markMonth m (markMonth m s) = markMonth m s ∧
      (markMonth m (markMonth m s)).months.countP (fun r => monthEq r m) = 1 ∧
      markMonth m t = t := by
  have hall : ∀ a ∈ s.months, ¬(monthEq a m = true) := List.countP_eq_zero.mp h
  have hnotins : is_month_inserted s m = false := by
    unfold is_month_inserted
    rw [List.any_eq_false]
    exact hall
  have hmark : markMonth m s = { s with months := s.months ++ [m] } := by
    simp [markMonth, hnotins]
  have hins1 : is_month_inserted (markMonth m s) m = true := markMonth_inserted m s
  refine ⟨markMonth_noop m _ hins1, ?_, markMonth_noop m t ht⟩
  rw [markMonth_noop m _ hins1, hmark]
  simp [List.countP_append, h, List.countP_cons, monthEq_self]

/-- Witness for C7 at the empty store and a store already holding the row. -/
theorem markMonth_idempotent_witness :
    markMonth ⟨1, 2023⟩ (markMonth ⟨1, 2023⟩ ⟨[], [], []⟩) =
        markMonth ⟨1, 2023⟩ ⟨[], [], []⟩ ∧
      (markMonth ⟨1, 2023⟩ (markMonth ⟨1, 2023⟩ ⟨[], [], []⟩)).months.countP
          (fun r => monthEq r ⟨1, 2023⟩) = 1 ∧
      markMonth ⟨1, 2023⟩ ⟨[], [⟨1, 2023⟩], []⟩ = ⟨[], [⟨1, 2023⟩], []⟩ :=
  markMonth_idempotent ⟨1, 2023⟩ ⟨[], [], []⟩ ⟨[], [⟨1, 2023⟩], []⟩ (by decide)
    (by decide)

/-! ## C8 -/

/-- C8 counterexample: the reference `player/games/0/5` has the trailing
segment `0`, which is not a positive integer, yet `archive_url_extract_month`
does not fail: `int()` accepts it and the partition {month 5, year 0} is
returned. -/
theorem archive_extract_accepts_non_positive :
    archive_url_extract_month ("player/games/0/5") = some ⟨5, 0⟩ ∧
      archive_url_extract_month ("a/-3/5") = some ⟨5, -3⟩ := by
  decide

/-- C8 amended: the trailing two path segments are parsed as year then month
with Python `int()` semantics; any reference whose last two segments parse as
integers — positive or not — yields the partition {month, year}, and the call
fails exactly when one of the two segments does not parse as an integer (or
fewer than two segments exist). -/
theorem archive_extract_amended (pre ys ms : List Char) (y m : Int)
    (url2 : String) (mcs ycs : List Char) (restSegs : List (List Char))
    (hy : pyInt? ys = some y) (hm : pyInt? ms = some m)
    (hys : '/' ∉ ys) (hms : '/' ∉ ms)
    (hsplit : (pySplit '/' url2.data).reverse = mcs :: ycs :: restSegs)
    (hbad : pyInt? ycs = none ∨ pyInt? mcs = none) :
    archive_url_extract_month ⟨pre ++ '/' :: ys ++ '/' :: ms⟩ = some ⟨m, y⟩ ∧
      archive_url_extract_month url2 = none := by
  constructor
  · have h1 : pre ++ '/' :: ys ++ '/' :: ms = (pre ++ '/' :: ys) ++ '/' :: ms := by
      simp
    have hsp : pySplit '/' (pre ++ '/' :: ys ++ '/' :: ms) =
        (pySplit '/' pre ++ [ys]) ++ [ms] := by
      rw [h1, pySplit_append_sep _ _ _ hms, pySplit_append_sep _ _ _ hys]
    unfold archive_url_extract_month
    rw [show (⟨pre ++ '/' :: ys ++ '/' :: ms⟩ : String).data =
      pre ++ '/' :: ys ++ '/' :: ms from rfl]
    rw [hsp]
    simp [List.reverse_append, hy, hm]
  · unfold archive_url_extract_month
    rw [hsplit]
    rcases hbad with hb | hb
    · cases hmc : pyInt? mcs with
      | none => simp [hb, hmc]
      | some v => simp [hb, hmc]
    · cases hyc : pyInt? ycs with
      | none => simp [hb, hyc]
      | some v => simp [hb, hyc]

/-- Witness for the amended C8 theorem at concrete references. -/
theorem archive_extract_amended_witness :
    archive_url_extract_month
        ⟨("archive").data ++ '/' :: ("2023").data ++ '/' :: ("4").data⟩ =
        some ⟨4, 2023⟩ ∧
      archive_url_extract_month ("a/b/c") = none :=
  archive_extract_amended (("archive").data) (("2023").data) (("4").data) 2023 4
    ("a/b/c") (("c").data) (("b").data) [("a").data] (by decide) (by decide)
    (by decide) (by decide) (by decide) (Or.inl (by decide))

/-! ## C9 -/

/-- A game row with uuid g1, used to exhibit the missing uniqueness
constraint. -/
def dupRow : GameRow :=
  { uuid := "g1", pgn := "p", lc_url := "l", cc_url := "c", time_control := "t",
    white := "w", white_url := "wu", white_rating := 1, black := "b",
    black_url := "bu", black_rating := 2, result := "draw" }

/-- C9 counterexample: the `games` table has no uniqueness constraint on
`uuid`, so inserting a record whose uuid is already present succeeds and
leaves two rows with that uuid — the store itself enforces nothing. -/
theorem recordGame_no_uniqueness :
    is_game_exported ⟨[dupRow], [], []⟩ ("g1") = true ∧
      (insertGame dupRow ⟨[dupRow], [], []⟩).games.countP
        (fun r => r.uuid == "g1") = 2 := by
  decide

/-- C9 amended: the store does not reject duplicate uuids — an insert always
appends one more row with that uuid — and uuid uniqueness is maintained only
by the caller's check-then-act discipline: the per-game loop, which checks
`is_game_exported` before every insert, preserves uuid uniqueness. -/
theorem store_uuid_check_then_act (sink : String → String) (gs : List RawGame)
    (s : Store) (row : GameRow) (h : uuidNodup s) :
    uuidNodup (processGames sink gs s).1 ∧
      (insertGame row s).games.countP (fun r => r.uuid == row.uuid) =
        s.games.countP (fun r => r.uuid == row.uuid) + 1 := by
  refine ⟨processGames_uuidNodup sink gs s h, ?_⟩
  simp [insertGame, List.countP_append, List.countP_cons]

/-- Witness for the amended C9 theorem from the empty store. -/
theorem store_uuid_check_then_act_witness :
    uuidNodup (processGames csink [sampleGame ("g1")] ⟨[], [], []⟩).1 ∧
      (insertGame dupRow ⟨[], [], []⟩).games.countP
          (fun r => r.uuid == dupRow.uuid) =
        (Store.mk [] [] []).games.countP (fun r => r.uuid == dupRow.uuid) + 1 :=
  store_uuid_check_then_act csink [sampleGame ("g1")] ⟨[], [], []⟩ dupRow
    (List.Pairwise.nil)

/-! ## C10 -/

/-- C10: comparing a Month with a non-Month value raises.  Both `__lt__` and
`__eq__` check `isinstance` first and raise `RuntimeError` for every operand
that is not a Month, instead of returning a boolean. -/
theorem month_compare_non_month_raises (a : Month) (t : String) :
    month_lt_py a (.other t) = .error ("Cannot compare Month with " ++ t) ∧
      month_eq_py a (.other t) = .error ("Cannot compare Month with " ++ t) :=
  ⟨rfl, rfl⟩

end Cc2lc
